import Mathlib

/-!
Verification of the webhook normalization / deduplication / transcription /
session-persistence pipeline of the tooriassisst repository.

Shallow embedding conventions:
* JS strings are Lean `String` (or `List Char` where character-level
  processing is required); JS falsy string values (`null`, `undefined`, `""`)
  are modelled either as `Option String` with `none`, or as `""` where the
  source only ever distinguishes truthy/falsy.
* The `\s` character class and `String.prototype.trim` are modelled over the
  ASCII whitespace characters space, tab, newline, carriage return.
* Asynchronous I/O (S3 reads, Transcribe polling, HTTP sends) is modelled by
  passing the observed outcomes in as explicit values or oracles and by
  recording the performed effects as explicit event traces.
-/

/-- Whitespace predicate modelling the JS `\s` class (ASCII subset), which is
also what `String.prototype.trim` removes. -/
def isWs (c : Char) : Bool :=
  c = ' ' || c = '\t' || c = '\n' || c = '\r'

/-- `trimChars` models `String.prototype.trim` on a character list. -/
def trimChars (l : List Char) : List Char :=
  ((l.dropWhile isWs).reverse.dropWhile isWs).reverse

/-- `jsTrim` models `s.trim()` on `String`. -/
def jsTrim (s : String) : String :=
  String.mk (trimChars s.data)

/-- Message roles occurring in the stored history
(`m.role === "user" || m.role === "assistant"`, anything else is `other`). -/
inductive Role where
  | user
  | assistant
  | other
deriving DecidableEq, Repr

/-- One stored history entry. `text` models `content[0].text` (absent parts
are `none`), `messageId` the optional provider message id, and `ts` the
optional `metadata.timestamp` used by the part_000/part_002 variants
(modelled as an abstract `Nat` instant). -/
structure Turn where
  role : Role
  text : Option String
  messageId : Option String
  ts : Option Nat
deriving DecidableEq, Repr

/- ===================== C10: loadHistory totality ===================== -/

/-- What the S3 read + JSON.parse of `loadHistory` (index.mjs 118-133) can
observe: the storage fetch throws, `JSON.parse` throws, or a JSON value is
produced which either is an array of turns or is not an array. -/
inductive Jsonish where
  | arr (items : List Turn)
  | nonArray
deriving DecidableEq, Repr

/-- Outcome of the durable read performed by `loadHistory`. -/
inductive LoadOutcome where
  | fetchError
  | parseError
  | parsed (j : Jsonish)
deriving DecidableEq, Repr

/-- `loadHistory` (index.mjs 118-133): the whole body is wrapped in
`try/catch` returning `[]`, and a successfully parsed non-array payload is
also mapped to `[]` (`Array.isArray(parsed) ? parsed : []`). -/
def loadHistory : LoadOutcome → List Turn
  | .fetchError => []
  | .parseError => []
  | .parsed (.arr l) => l
  | .parsed .nonArray => []

/- ===================== C6: audio classifiers ===================== -/

/-- `hay.includes(needle)` on JS strings: contiguous-substring containment. -/
def containsSeq (needle : List Char) : List Char → Bool
  | [] => needle.isEmpty
  | c :: rest => needle.isPrefixOf (c :: rest) || containsSeq needle rest

/-- `audioTypes` constant of `isAudioFile` (index.mjs 283). -/
def audioTypes : List String :=
  ["audio/ogg", "audio/mpeg", "audio/mp4", "audio/wav", "audio/webm", "audio/aac"]

/-- `type.split('/')[1]` : the segment after the first `/`. -/
def splitSlash1 (s : List Char) : List Char :=
  ((s.dropWhile (· ≠ '/')).drop 1).takeWhile (· ≠ '/')

/-- `s.toLowerCase()`. -/
def lowerStr (s : String) : String :=
  String.mk (s.data.map Char.toLower)

/-- `isAudioFile` (index.mjs 281-285, WhatsAppAdapter.mjs 43-47):
`if (!contentType) return false;
 return audioTypes.some(t => contentType.toLowerCase().includes(t.split('/')[1]))`. -/
def isAudioFile (ct : Option String) : Bool :=
  match ct with
  | none => false
  | some s =>
    if s = "" then false
    else audioTypes.any (fun t => containsSeq (splitSlash1 t.data) (lowerStr s).data)

/-- `isAudio` (src/unnamed/part_001 30-32):
`contentType && contentType.includes('audio')`. -/
def isAudio (ct : Option String) : Bool :=
  match ct with
  | none => false
  | some s => s ≠ "" && containsSeq "audio".data s.data

/- ===================== C1/C2: dedup guard and history commit ===================== -/

/-- JS `arr.slice(-k)`: the last `k` elements, the whole array when `k = 0`
(because `-0 === 0`) or when the array is shorter. -/
def jsSliceLast (k : Nat) (l : List α) : List α :=
  if k = 0 then l else l.drop (l.length - k)

/-- Duplicate check of the Meta/JSON path (index.mjs 419-424):
`history.slice(-10).some(msg => msg.role === "user" &&
 msg.content?.[0]?.text === inputText && msg.messageId === messageId)`. -/
def isDuplicateMeta (history : List Turn) (input : String) (mid : String) : Bool :=
  (jsSliceLast 10 history).any (fun m =>
    decide (m.role = Role.user) && decide (m.text = some input) &&
    decide (m.messageId = some mid))

/-- Duplicate check of the Twilio/form path (index.mjs 479-483):
`history.slice(-10).some(msg => msg.role === "user" && msg.messageId === messageId)`
— note: no text comparison. -/
def isDuplicateTwilio (history : List Turn) (mid : String) : Bool :=
  (jsSliceLast 10 history).any (fun m =>
    decide (m.role = Role.user) && decide (m.messageId = some mid))

/-- `trimHistory` (index.mjs 115-116):
`messages.filter(m => m.role === "user" || m.role === "assistant").slice(-MAX_TURNS * 2)`. -/
def trimHistory (maxTurns : Nat) (messages : List Turn) : List Turn :=
  jsSliceLast (maxTurns * 2)
    (messages.filter (fun m =>
      decide (m.role = Role.user) || decide (m.role = Role.assistant)))

/-- The user turn built at index.mjs 630-634; the `messageId` field is added
only when `messageId` is truthy (`...(messageId && { messageId })`). -/
def mkUserTurn (input mid : String) : Turn :=
  ⟨Role.user, some input, if mid = "" then none else some mid, none⟩

/-- The assistant turn built at index.mjs 691. -/
def mkAssistantTurn (reply : String) : Turn :=
  ⟨Role.assistant, some reply, none, none⟩

/-- The turn log passed to `saveHistory` on a commit (index.mjs 626-698):
`newHistory = [...trimHistory(history), ...(userMessage ? [userMessage] : []), assistantMessage]`. -/
def persistedHistory (maxTurns : Nat) (loaded : List Turn) (input mid reply : String) :
    List Turn :=
  trimHistory maxTurns loaded ++
    (if input = "" then [] else [mkUserTurn input mid]) ++ [mkAssistantTurn reply]

/-- Meta-path handler outcome (status code, durable log after the request):
on a detected duplicate the handler returns
`{statusCode: 200, body: DUPLICATE_IGNORED}` before any save, leaving the
store untouched (index.mjs 418-430); otherwise it commits `persistedHistory`. -/
def handlerMeta (maxTurns : Nat) (store : List Turn) (input mid reply : String) :
    Nat × List Turn :=
  if mid ≠ "" && isDuplicateMeta store input mid then (200, store)
  else (200, persistedHistory maxTurns store input mid reply)

/-- Twilio-path handler outcome (index.mjs 478-489), analogous but with the
id-only duplicate check. -/
def handlerTwilio (maxTurns : Nat) (store : List Turn) (input mid reply : String) :
    Nat × List Turn :=
  if mid ≠ "" && isDuplicateTwilio store mid then (200, store)
  else (200, persistedHistory maxTurns store input mid reply)

/-- A log of 25 distinct conversational turns (for the C2 counterexample). -/
def turnSeq (n : Nat) : List Turn :=
  (List.range n).map (fun i => ⟨Role.user, some "x", none, some i⟩)

/- ===================== C4: transcription poll loop ===================== -/

/-- Status observed by one `GetTranscriptionJob` poll; `completed` carries the
transcript fetched from `TranscriptFileUri`
(`transcriptData.results.transcripts[0]?.transcript`, `none` when absent). -/
inductive JobStatus where
  | inProgress
  | completed (transcript : Option String)
  | failed
  | otherStatus
deriving DecidableEq, Repr

/-- Effects performed by the poll loop. -/
inductive PollEv where
  | waitMs (ms : Nat)
  | statusCheck
deriving DecidableEq, Repr

/-- The poll loop of `transcribeAudio` (index.mjs 234-271) and
`waitForTranscriptionCompletion` (WhatsAppAdapter.mjs 319-359):
`while (jobStatus === 'IN_PROGRESS' && attempts < maxAttempts) { await sleep;
attempts++; poll; ... }`. The loop is embedded with `fuel = maxAttempts -
attempts`, which is exactly the loop guard; `oracle n` is the status the
`n`-th poll observes. Result `none` covers the JS `null`/`undefined`
returns for failure, timeout and unexpected terminal status. -/
def pollLoopGo (interval : Nat) (oracle : Nat → JobStatus) :
    Nat → Nat → Option String × List PollEv
  | 0, _ => (none, [])
  | fuel + 1, attempts =>
    match oracle attempts with
    | .completed t => (some (t.getD ""), [.waitMs interval, .statusCheck])
    | .failed => (none, [.waitMs interval, .statusCheck])
    | .otherStatus => (none, [.waitMs interval, .statusCheck])
    | .inProgress =>
      let r := pollLoopGo interval oracle fuel (attempts + 1)
      (r.1, .waitMs interval :: .statusCheck :: r.2)

/-- `transcribeAudio` polling phase: 1000 ms interval, `maxAttempts = 30`. -/
def transcribeAudioTrace (oracle : Nat → JobStatus) : Option String × List PollEv :=
  pollLoopGo 1000 oracle 30 0

/-- `waitForTranscriptionCompletion`: 2000 ms interval, `maxAttempts = 30`. -/
def waitForTranscriptionCompletionTrace (oracle : Nat → JobStatus) :
    Option String × List PollEv :=
  pollLoopGo 2000 oracle 30 0

/- ===================== C5: audio fallback contract ===================== -/

/-- Fallback sent when transcription yields nothing usable
(index.mjs 445, 509, 545; WhatsAppAdapter.mjs 475). -/
def audioFallbackText : String :=
  "He recibido tu mensaje de audio pero no pude entender lo que dijiste. ¿Podrías escribirme o enviar el audio de nuevo?"

/-- Fallback of the `catch` branch of `processAudioMedia` (WhatsAppAdapter.mjs 479). -/
def audioErrorText : String :=
  "He recibido tu mensaje de audio pero hubo un error al procesarlo. ¿Podrías escribirme o intentar de nuevo?"

/-- Fallback when no audio descriptor is found (WhatsAppAdapter.mjs 465). -/
def noAudioText : String :=
  "He recibido un archivo multimedia pero no pude procesarlo como audio."

/-- The caller-side resolution of a transcription result (index.mjs 440-447):
`if (transcribedText && transcribedText.trim()) inputText = transcribedText.trim();
 else inputText = <fallback>`. -/
def resolveAudioText (r : Option String) : String :=
  match r with
  | some t => if t ≠ "" ∧ jsTrim t ≠ "" then jsTrim t else audioFallbackText
  | none => audioFallbackText

/-- One extracted media descriptor (`{url, contentType}`); `contentType` is
`none` when the `MediaContentType{i}` field is absent. -/
structure Media where
  url : String
  contentType : Option String
deriving DecidableEq, Repr

/-- `processAudioMedia` (WhatsAppAdapter.mjs 453-481). The transcription call
(`processAudioFile`) is passed in as its observed outcome: `.error` when it
threw, `.ok r` when it returned `r` (`none` models the `null` returned on
job failure/timeout). -/
def processAudioMedia (mediaInfo : Option (List Media))
    (outcome : Except Unit (Option String)) : Option String :=
  match mediaInfo with
  | none => none
  | some medias =>
    match medias.find? (fun m => isAudioFile m.contentType) with
    | none => some noAudioText
    | some _ =>
      match outcome with
      | .error _ => some audioErrorText
      | .ok r =>
        match r with
        | some t => if t ≠ "" ∧ jsTrim t ≠ "" then some (jsTrim t) else some audioFallbackText
        | none => some audioFallbackText

/- ===================== C7: reply splitter ===================== -/

/-- `texto.split(/\n\n+/)` : split on maximal runs of at least two newlines.
`accRev` is the current segment reversed, `pending` counts newlines seen but
not yet classified as separator or content. -/
def paraAux : List Char → List Char → Nat → List (List Char)
  | [], accRev, pending =>
    if 2 ≤ pending then [accRev.reverse, []]
    else [(List.replicate pending '\n' ++ accRev).reverse]
  | c :: rest, accRev, pending =>
    if c = '\n' then paraAux rest accRev (pending + 1)
    else if 2 ≤ pending then accRev.reverse :: paraAux rest [c] 0
    else paraAux rest (c :: (List.replicate pending '\n' ++ accRev)) 0

/-- The paragraphs of a reply. -/
def paras (texto : List Char) : List (List Char) :=
  paraAux texto [] 0

/-- `trimmed.split(/(?<=\.)\s+/)` : split on maximal whitespace runs that are
preceded by a period; `inSep` is true while consuming such a run. -/
def sentAux : List Char → List Char → Bool → List (List Char)
  | [], accRev, _ => [accRev.reverse]
  | c :: rest, accRev, true =>
    if isWs c then sentAux rest accRev true
    else sentAux rest [c] false
  | c :: rest, accRev, false =>
    if isWs c ∧ accRev.head? = some '.' then accRev.reverse :: sentAux rest [] true
    else sentAux rest (c :: accRev) false

/-- The sentences of a paragraph. -/
def sentences (t : List Char) : List (List Char) :=
  sentAux t [] false

/-- The greedy sentence packer of `dividirRespuesta` (index.mjs 96-106):
`if (currentMessage.length + sentence.length <= 300)
   currentMessage += (currentMessage ? " " : "") + sentence;
 else { if (currentMessage) messages.push(currentMessage); currentMessage = sentence; }`
with the final `if (currentMessage) messages.push(currentMessage)`. -/
def packAux : List (List Char) → List Char → List (List Char)
  | [], cur => if cur = [] then [] else [cur]
  | s :: rest, cur =>
    if cur.length + s.length ≤ 300 then
      packAux rest (if cur = [] then s else cur ++ ' ' :: s)
    else if cur = [] then packAux rest s
    else cur :: packAux rest s

/-- Per-paragraph processing of `dividirRespuesta` (index.mjs 86-108). -/
def procPara (p : List Char) : List (List Char) :=
  let t := trimChars p
  if t = [] then []
  else if t.length ≤ 300 then [t]
  else packAux (sentences t) []

/-- `dividirRespuesta` (index.mjs 81-111, WhatsAppAdapter.mjs 566-596):
paragraph split, per-paragraph fragmenting, and the final
`messages.length > 0 ? messages : [texto.trim()]`. -/
def dividirRespuesta (texto : List Char) : List (List Char) :=
  let msgs := ((paras texto).map procPara).flatten
  if msgs = [] then [trimChars texto] else msgs

/- ===================== C8: outbound dispatch ===================== -/

/-- Effects of the outbound dispatch loops. -/
inductive SendEv where
  | send (msg : String)
  | delayMs (ms : Nat)
deriving DecidableEq, Repr

/-- The Twilio send loop of the handler (index.mjs 701-715):
`for (const fragmento of mensajes) { ...POST...; await esperar(800); }`
— the 800 ms delay runs after every fragment, including the last. -/
def twilioSendLoop (mensajes : List String) : List SendEv :=
  mensajes.flatMap (fun m => [SendEv.send m, SendEv.delayMs 800])

/-- `sendMessagesToWhatsApp` (WhatsAppAdapter.mjs 680-703): sends in index
order and delays 800 ms only when `i < messages.length - 1`. -/
def sendMessagesToWhatsApp : List String → List SendEv
  | [] => []
  | [m] => [SendEv.send m]
  | m :: rest => SendEv.send m :: SendEv.delayMs 800 :: sendMessagesToWhatsApp rest

/-- Projection extracting a sent fragment from an event. -/
def sentOf : SendEv → Option String
  | .send m => some m
  | .delayMs _ => none

/- ===================== C3: identity resolution ===================== -/

/-- Resolved identity (`{phone, userId}`; the `phoneNumberId` member is an
environment constant and is omitted). A JS `null` phone is modelled as `""`. -/
structure UserInfo where
  phone : String
  userId : String
deriving DecidableEq, Repr

/-- The nested `entry[0].changes[0].value` of a Meta webhook, reduced to the
two identity-bearing fields read by `extractFromMetaWebhook`
(`contacts[0].wa_id` and `messages[0].from`, `""` when absent). -/
structure MetaValue where
  contactWaId : String
  msgFrom : String
deriving DecidableEq, Repr

/-- The flat parsed request form: the key/value pairs produced by
`querystring.parse`, plus the nested Meta `value` object when the body was
the JSON webhook shape (`none` otherwise). -/
structure Form where
  fields : List (String × String)
  metaValue : Option MetaValue
deriving DecidableEq, Repr

/-- `form[k]`, with `""` for an absent (hence falsy) field. -/
def formGet (f : Form) (k : String) : String :=
  ((f.fields.find? (fun e => decide (e.1 = k))).map (fun e => e.2)).getD ""

/-- `s.replace(/\D/g, "")` (also `normalizePhone`). -/
def digitsOnly (s : String) : String :=
  String.mk (s.data.filter Char.isDigit)

/-- `from.replace(/^whatsapp:/, "")`. -/
def stripWhatsapp (s : String) : String :=
  if "whatsapp:".data.isPrefixOf s.data then String.mk (s.data.drop 9) else s

/-- `extractFromTwilioFormat` (WhatsAppAdapter.mjs 159-194). -/
def extractFromTwilioFormat (f : Form) : Option UserInfo :=
  let fromF := formGet f "From"
  let waIdF := formGet f "WaId"
  if fromF = "" ∧ waIdF = "" then none
  else if fromF ≠ "" then
    let phone := stripWhatsapp fromF
    let waid := if waIdF ≠ "" then waIdF else phone
    some ⟨phone, "wa:" ++ digitsOnly waid⟩
  else
    some ⟨"+" ++ digitsOnly waIdF, "wa:" ++ digitsOnly waIdF⟩

/-- First match of `/lit(\d+)/` in a character list: scan left to right for
an occurrence of the literal followed by at least one digit; return the
maximal digit run captured there. -/
def regexLitDigits (lit : List Char) : List Char → Option (List Char)
  | [] => none
  | c :: rest =>
    if lit.isPrefixOf (c :: rest) then
      let ds := ((c :: rest).drop lit.length).takeWhile Char.isDigit
      if ds = [] then regexLitDigits lit rest else some ds
    else regexLitDigits lit rest

/-- `extractFromMalformedKey` (WhatsAppAdapter.mjs 199-218): applies only
when the parsed form has exactly one key (which never happens for a parsed
JSON webhook body, modelled as `metaValue = none`); the regexes
`/From=whatsapp%3A%2B(\d+)/` and `/WaId=(\d+)/` are tried on that key. -/
def extractFromMalformedKey (f : Form) : Option UserInfo :=
  match f.metaValue, f.fields with
  | none, [(k, _)] =>
    match (regexLitDigits "From=whatsapp%3A%2B".data k.data).orElse
        (fun _ => regexLitDigits "WaId=".data k.data) with
    | some ds => some ⟨"+" ++ String.mk ds, "wa:" ++ String.mk ds⟩
    | none => none
  | _, _ => none

/-- `extractFromMetaWebhook` (WhatsAppAdapter.mjs 223-249). -/
def extractFromMetaWebhook (f : Form) : Option UserInfo :=
  match f.metaValue with
  | none => none
  | some v =>
    if v.contactWaId ≠ "" ∨ v.msgFrom ≠ "" then
      let waid := if v.contactWaId ≠ "" then v.contactWaId else v.msgFrom
      some ⟨waid, "wa:" ++ digitsOnly waid⟩
    else none

/-- `extractUserInfo` (WhatsAppAdapter.mjs 254-268): the three strategies in
order of preference, then the anonymous fallback. -/
def extractUserInfo (f : Form) : UserInfo :=
  (((extractFromTwilioFormat f).orElse (fun _ => extractFromMalformedKey f)).orElse
    (fun _ => extractFromMetaWebhook f)).getD ⟨"", "anon"⟩

/-- `metadata.timestamp` of the last message of a history
(`memory[k][len-1]?.metadata?.timestamp || 0`). -/
def lastTs (h : List Turn) : Nat :=
  (h.getLast?.bind Turn.ts).getD 0

/-- The sessions eligible for the anonymous reattachment
(part_000 566-567): keys starting with `wa:` whose history is nonempty. -/
def waCandidates (mem : List (String × List Turn)) : List (String × List Turn) :=
  mem.filter (fun e => "wa:".data.isPrefixOf e.1.data && !e.2.isEmpty)

/-- `sort(desc by last timestamp)[0]` over a stable sort: the first entry
whose last-message timestamp is maximal. -/
def pickRecent : List (String × List Turn) → Option (String × List Turn)
  | [] => none
  | e :: rest =>
    match pickRecent rest with
    | none => some e
    | some b => if lastTs b.2 > lastTs e.2 then some b else some e

/-- The anonymous-session reattachment of the part_000/part_002 handler
variants (part_000 564-583): when every extraction strategy has failed
(`userId === 'anon'`), the most recently active previously seen `wa:`
session, if any, is adopted as this request's user. -/
def handlerAnonReattach (userId : String) (mem : List (String × List Turn)) : String :=
  if userId = "anon" then
    match pickRecent (waCandidates mem) with
    | some e => e.1
    | none => "anon"
  else userId

/- ===================== C9: history store restore ===================== -/

/-- `memory[k]` lookup: `none` when the key is absent. -/
def lookupSession (sessions : List (String × List Turn)) (k : String) :
    Option (List Turn) :=
  (sessions.find? (fun e => decide (e.1 = k))).map (fun e => e.2)

/-- The backups belonging to a user:
`Object.keys(memory).filter(key => key.startsWith('backup_' + userId + '_'))`. -/
def userBackups (backups : List (String × List Turn)) (userId : String) :
    List (String × List Turn) :=
  backups.filter (fun e => ("backup_" ++ userId ++ "_").data.isPrefixOf e.1.data)

/-- `.sort().reverse()[0]` on unique string keys: the entry with the
lexicographically greatest key. -/
def pickMaxKey : List (String × List Turn) → Option (String × List Turn)
  | [] => none
  | e :: rest =>
    match pickMaxKey rest with
    | none => some e
    | some b => if e.1 < b.1 then some b else some e

/-- `restoreConversation` (WhatsAppAdapter.mjs 741-760): the latest backup's
history, or `[]` when the user has no backups. -/
def restoreConversation (backups : List (String × List Turn)) (userId : String) :
    List Turn :=
  match pickMaxKey (userBackups backups userId) with
  | some e => e.2
  | none => []

/-- `getConversationHistory` (WhatsAppAdapter.mjs 765-784):
`if (memory[userId]) return memory[userId];` — note that an empty array is
truthy, so restore runs only when the key is absent; then
`restored.length > 0 ? restored : []`. -/
def getConversationHistory (sessions backups : List (String × List Turn))
    (userId : String) : List Turn :=
  match lookupSession sessions userId with
  | some h => h
  | none =>
    let restored := restoreConversation backups userId
    if restored.isEmpty then [] else restored

/- ===================== Helper lemmas ===================== -/

theorem containsSeq_iff (needle hay : List Char) :
    containsSeq needle hay = true ↔ needle <:+: hay := by
  induction hay with
  | nil => simp [containsSeq, List.isEmpty_iff]
  | cons c rest ih =>
    simp [containsSeq, List.infix_cons_iff, ih, List.isPrefixOf_iff_prefix]

/- ===================== C10 ===================== -/

/-- C10: `loadHistory` is total at its interface: a failed storage read, an
unparsable payload, or a payload that is not a JSON array all yield `[]`
(fresh session) rather than an exception, and an array payload is returned
as is. Totality (no exception) is witnessed by `loadHistory` being a plain
function into `List Turn`. -/
theorem loadHistory_total (o : LoadOutcome) :
    ((o = .fetchError ∨ o = .parseError ∨ o = .parsed .nonArray) → loadHistory o = []) ∧
    (∀ l, o = .parsed (.arr l) → loadHistory o = l) := by
  constructor
  · rintro (rfl | rfl | rfl) <;> rfl
  · rintro l rfl; rfl

/-- Witness for `loadHistory_total` at concrete outcomes. -/
theorem loadHistory_total_witness :
    loadHistory .fetchError = [] ∧ loadHistory (.parsed .nonArray) = [] ∧
    loadHistory (.parsed (.arr [⟨Role.user, some "hola", none, none⟩])) =
      [⟨Role.user, some "hola", none, none⟩] :=
  ⟨(loadHistory_total .fetchError).1 (Or.inl rfl),
   (loadHistory_total (.parsed .nonArray)).1 (Or.inr (Or.inr rfl)),
   (loadHistory_total (.parsed (.arr _))).2 _ rfl⟩

/- ===================== C6 ===================== -/

/-- C6 counterexample: the claim "the audio classifier returns true iff the
substring \"audio\" occurs in the content type" is false for `isAudioFile`
(the classifier used by the handlers, index.mjs 281-285): `"video/mp4"`
contains no `"audio"` yet classifies as audio, and `"audio/flac"` contains
`"audio"` yet does not. -/
theorem isAudioFile_substring_counterexample :
    isAudioFile (some "video/mp4") = true ∧
    containsSeq "audio".data "video/mp4".data = false ∧
    isAudioFile (some "audio/flac") = false ∧
    containsSeq "audio".data "audio/flac".data = true := by decide

/-- C6 amended: a nonempty content type classifies as audio under
`isAudioFile` iff its lowercasing contains one of the known audio subtype
substrings (`ogg`, `mpeg`, `mp4`, `wav`, `webm`, `aac`); the simplified
variant `isAudio` (part_001) is the classifier that tests for the substring
"audio" exactly. An absent/empty content type classifies as non-audio in
both. -/
theorem audio_classifier_spec (s : String) (hs : s ≠ "") :
    (isAudioFile (some s) = true ↔
      ∃ t ∈ audioTypes, splitSlash1 t.data <:+: (lowerStr s).data) ∧
    (isAudio (some s) = true ↔ "audio".data <:+: s.data) ∧
    isAudioFile none = false ∧ isAudio none = false := by
  refine ⟨?_, ?_, rfl, rfl⟩
  · simp [isAudioFile, hs, List.any_eq_true, containsSeq_iff]
  · simp [isAudio, hs, containsSeq_iff]

/-- Witness for `audio_classifier_spec` at `"audio/ogg"`. -/
theorem audio_classifier_spec_witness :
    ("audio/ogg" : String) ≠ "" ∧
    ((isAudioFile (some "audio/ogg") = true ↔
        ∃ t ∈ audioTypes, splitSlash1 t.data <:+: (lowerStr "audio/ogg").data) ∧
      (isAudio (some "audio/ogg") = true ↔ "audio".data <:+: "audio/ogg".data) ∧
      isAudioFile none = false ∧ isAudio none = false) :=
  ⟨by decide, audio_classifier_spec "audio/ogg" (by decide)⟩

/- ===================== C1 ===================== -/

/-- C1 counterexample: on the Twilio path the Deduplication Guard classifies
an event as duplicate on a matching `MessageSid` alone — here the stored
user turn has text `"a"` while the candidate text is `"b"`, yet the guard
fires and the handler acknowledges with 200 leaving the log unchanged, so
"duplicate iff same externalMessageId AND same text" is false. -/
theorem dedup_twilio_id_only_counterexample :
    isDuplicateTwilio [⟨Role.user, some "a", some "SM1", none⟩] "SM1" = true ∧
    (¬ ∃ m ∈ jsSliceLast 10 [(⟨Role.user, some "a", some "SM1", none⟩ : Turn)],
        m.role = Role.user ∧ m.messageId = some "SM1" ∧ m.text = some "b") ∧
    handlerTwilio 12 [⟨Role.user, some "a", some "SM1", none⟩] "b" "SM1" "resp" =
      (200, [⟨Role.user, some "a", some "SM1", none⟩]) := by decide

/-- C1 amended: the Meta/JSON path classifies a candidate as duplicate iff a
user-role turn among the last 10 has both the same `externalMessageId` and
the same text; the Twilio/form path requires only the same
`externalMessageId` (no text comparison); on either path a detected
duplicate yields a 200 acknowledgment with the durable log left unchanged
(zero turns appended). -/
theorem dedup_guard_spec (history store : List Turn) (input mid reply : String)
    (maxTurns : Nat) :
    (isDuplicateMeta history input mid = true ↔
      ∃ m ∈ jsSliceLast 10 history,
        m.role = Role.user ∧ m.text = some input ∧ m.messageId = some mid) ∧
    (isDuplicateTwilio history mid = true ↔
      ∃ m ∈ jsSliceLast 10 history, m.role = Role.user ∧ m.messageId = some mid) ∧
    (mid ≠ "" → isDuplicateMeta store input mid = true →
      handlerMeta maxTurns store input mid reply = (200, store)) ∧
    (mid ≠ "" → isDuplicateTwilio store mid = true →
      handlerTwilio maxTurns store input mid reply = (200, store)) := by
  refine ⟨?_, ?_, ?_, ?_⟩
  · simp [isDuplicateMeta, List.any_eq_true, and_assoc]
  · simp [isDuplicateTwilio, List.any_eq_true]
  · intro h1 h2; simp [handlerMeta, h1, h2]
  · intro h1 h2; simp [handlerTwilio, h1, h2]

/-- Witness for `dedup_guard_spec`: a resent Meta message (same id, same
text) is acknowledged with 200 and appends nothing. -/
theorem dedup_guard_spec_witness :
    handlerMeta 12 [⟨Role.user, some "hola", some "wamid.1", none⟩] "hola" "wamid.1" "r" =
      (200, [⟨Role.user, some "hola", some "wamid.1", none⟩]) :=
  (dedup_guard_spec [⟨Role.user, some "hola", some "wamid.1", none⟩]
    [⟨Role.user, some "hola", some "wamid.1", none⟩] "hola" "wamid.1" "r" 12).2.2.1
    (by decide) (by decide)

/- ===================== C2 ===================== -/

/-- C2 counterexample: the durable log is not append-only — with 25
conversational turns loaded, the committed log drops the oldest turn
(`trimHistory` keeps only the last `MAX_TURNS * 2 = 24` turns and the
trimmed list is what gets saved, index.mjs 626-698). -/
theorem history_commit_drops_turns_counterexample :
    (⟨Role.user, some "x", none, some 0⟩ : Turn) ∈ turnSeq 25 ∧
    (⟨Role.user, some "x", none, some 0⟩ : Turn) ∉
      persistedHistory 12 (turnSeq 25) "hola" "" "r" := by decide

/-- C2 amended: the committed log is the loaded log filtered to
user/assistant turns and truncated to the most recent `maxTurns * 2` of
them, with the new user and assistant turns appended; the retained portion
is a suffix of the filtered log and an order-preserving sublist of the
loaded log, but turns older than the window are removed from the durable
log at commit time (the window is not merely a read-time bound). -/
theorem persistedHistory_window (maxTurns : Nat) (loaded : List Turn)
    (input mid reply : String) :
    persistedHistory maxTurns loaded input mid reply =
      trimHistory maxTurns loaded ++
        (if input = "" then [] else [mkUserTurn input mid]) ++ [mkAssistantTurn reply] ∧
    trimHistory maxTurns loaded <:+
      loaded.filter (fun m =>
        decide (m.role = Role.user) || decide (m.role = Role.assistant)) ∧
    (trimHistory maxTurns loaded).Sublist loaded := by
  have hsuf : trimHistory maxTurns loaded <:+
      loaded.filter (fun m =>
        decide (m.role = Role.user) || decide (m.role = Role.assistant)) := by
    unfold trimHistory jsSliceLast
    split
    · exact List.suffix_rfl
    · exact List.drop_suffix _ _
  exact ⟨rfl, hsuf, hsuf.sublist.trans (List.filter_sublist _)⟩

/- ===================== C8 ===================== -/

theorem sendMessages_sends (msgs : List String) :
    (sendMessagesToWhatsApp msgs).filterMap sentOf = msgs := by
  induction msgs with
  | nil => rfl
  | cons m rest ih =>
    cases rest with
    | nil => rfl
    | cons m2 rest2 => simp [sendMessagesToWhatsApp, sentOf] at ih ⊢; exact ih

theorem twilioLoop_sends (msgs : List String) :
    (twilioSendLoop msgs).filterMap sentOf = msgs := by
  induction msgs with
  | nil => rfl
  | cons m rest ih => simp [twilioSendLoop, sentOf] at ih ⊢; exact ih

theorem sendMessages_intersperse (msgs : List String) :
    sendMessagesToWhatsApp msgs =
      List.intersperse (SendEv.delayMs 800) (msgs.map SendEv.send) := by
  induction msgs with
  | nil => rfl
  | cons m rest ih =>
    cases rest with
    | nil => rfl
    | cons m2 rest2 =>
      simp only [List.map_cons, List.intersperse_cons_cons] at ih ⊢
      rw [show sendMessagesToWhatsApp (m :: m2 :: rest2) =
        SendEv.send m :: SendEv.delayMs 800 :: sendMessagesToWhatsApp (m2 :: rest2) from rfl]
      rw [ih]

theorem twilioLoop_ne_nil (m : String) (rest : List String) :
    twilioSendLoop (m :: rest) ≠ [] := by
  simp [twilioSendLoop]

theorem twilioLoop_trailing (msgs : List String) (h : msgs ≠ []) :
    (twilioSendLoop msgs).getLast? = some (SendEv.delayMs 800) := by
  induction msgs with
  | nil => exact absurd rfl h
  | cons m rest ih =>
    cases rest with
    | nil => rfl
    | cons m2 rest2 =>
      have hstep : twilioSendLoop (m :: m2 :: rest2) =
          [SendEv.send m, SendEv.delayMs 800] ++ twilioSendLoop (m2 :: rest2) := rfl
      rw [hstep, List.getLast?_append, ih (by simp)]
      rfl

/-- C8 counterexample: the monolithic handler's Twilio loop
(index.mjs 701-715) performs the 800 ms delay after every fragment,
including the final one — its trace for a single fragment ends with a delay,
while the adapter dispatcher omits it. -/
theorem twilio_trailing_delay_counterexample :
    twilioSendLoop ["hola"] = [SendEv.send "hola", SendEv.delayMs 800] ∧
    (twilioSendLoop ["hola"]).getLast? = some (SendEv.delayMs 800) ∧
    sendMessagesToWhatsApp ["hola"] = [SendEv.send "hola"] := by decide

/-- C8 amended: both dispatch loops send the fragments strictly in their
original order with a fixed 800 ms delay between consecutive sends; the
adapter dispatcher `sendMessagesToWhatsApp` performs no delay after the
final fragment (its trace is the sends interspersed with delays), but the
monolithic handler's loop also delays after the final fragment. -/
theorem dispatch_order_spec (msgs : List String) :
    (sendMessagesToWhatsApp msgs).filterMap sentOf = msgs ∧
    (twilioSendLoop msgs).filterMap sentOf = msgs ∧
    sendMessagesToWhatsApp msgs =
      List.intersperse (SendEv.delayMs 800) (msgs.map SendEv.send) ∧
    (msgs ≠ [] → (twilioSendLoop msgs).getLast? = some (SendEv.delayMs 800)) :=
  ⟨sendMessages_sends msgs, twilioLoop_sends msgs, sendMessages_intersperse msgs,
   twilioLoop_trailing msgs⟩

/-- Witness for `dispatch_order_spec` on a two-fragment reply. -/
theorem dispatch_order_spec_witness :
    (sendMessagesToWhatsApp ["hola", "chau"]).filterMap sentOf = ["hola", "chau"] ∧
    (twilioSendLoop ["hola", "chau"]).getLast? = some (SendEv.delayMs 800) :=
  ⟨(dispatch_order_spec ["hola", "chau"]).1,
   (dispatch_order_spec ["hola", "chau"]).2.2.2 (by decide)⟩

/- ===================== C4 ===================== -/

theorem pollLoopGo_trace (interval : Nat) (oracle : Nat → JobStatus) :
    ∀ fuel attempts, ∃ k ≤ fuel,
      (pollLoopGo interval oracle fuel attempts).2 =
        (List.replicate k [PollEv.waitMs interval, PollEv.statusCheck]).flatten := by
  intro fuel
  induction fuel with
  | zero => intro attempts; exact ⟨0, Nat.le_refl 0, rfl⟩
  | succ n ih =>
    intro attempts
    cases h : oracle attempts with
    | inProgress =>
      obtain ⟨k, hk, htr⟩ := ih (attempts + 1)
      refine ⟨k + 1, by omega, ?_⟩
      simp [pollLoopGo, h, htr, List.replicate_succ]
    | completed t => exact ⟨1, by omega, by simp [pollLoopGo, h]⟩
    | failed => exact ⟨1, by omega, by simp [pollLoopGo, h]⟩
    | otherStatus => exact ⟨1, by omega, by simp [pollLoopGo, h]⟩

theorem flatten_replicate_count (k interval : Nat) :
    ((List.replicate k [PollEv.waitMs interval, PollEv.statusCheck]).flatten).count
      PollEv.statusCheck = k := by
  induction k with
  | zero => rfl
  | succ n ih => simp [List.replicate_succ, List.count_append, List.count_cons, ih]

/-- C4: the transcription poll loops perform at most the configured 30
attempts, each consisting of one fixed sleep (1000 ms in `transcribeAudio`,
2000 ms in `waitForTranscriptionCompletion`) immediately followed by one
status poll, and then return — for every possible status sequence
(completion, failure, an unexpected status, or a job that never leaves
IN_PROGRESS) the effect trace is exactly `k ≤ 30` sleep-poll blocks. -/
theorem transcription_poll_bounded (oracle : Nat → JobStatus) :
    (∃ k ≤ 30, (transcribeAudioTrace oracle).2 =
        (List.replicate k [PollEv.waitMs 1000, PollEv.statusCheck]).flatten ∧
      (transcribeAudioTrace oracle).2.count PollEv.statusCheck = k) ∧
    (∃ k ≤ 30, (waitForTranscriptionCompletionTrace oracle).2 =
        (List.replicate k [PollEv.waitMs 2000, PollEv.statusCheck]).flatten ∧
      (waitForTranscriptionCompletionTrace oracle).2.count PollEv.statusCheck = k) := by
  constructor
  · obtain ⟨k, hk, htr⟩ := pollLoopGo_trace 1000 oracle 30 0
    exact ⟨k, hk, htr, by rw [show (transcribeAudioTrace oracle).2 =
      (pollLoopGo 1000 oracle 30 0).2 from rfl, htr]; exact flatten_replicate_count k 1000⟩
  · obtain ⟨k, hk, htr⟩ := pollLoopGo_trace 2000 oracle 30 0
    exact ⟨k, hk, htr, by rw [show (waitForTranscriptionCompletionTrace oracle).2 =
      (pollLoopGo 2000 oracle 30 0).2 from rfl, htr]; exact flatten_replicate_count k 2000⟩

/- ===================== C5 ===================== -/

theorem jsTrim_ne_empty (t : String) (h : jsTrim t ≠ "") : t ≠ "" := by
  intro ht; exact h (by rw [ht]; rfl)

/-- C5: when transcription yields `null` (failure, timeout or error) or an
empty/whitespace-only transcript, the extracted message text becomes the
fixed user-facing fallback string (the `catch` branch of
`processAudioMedia` yields its own fixed error string); the result is
always a string — never `null` or an exception — and on success the trimmed
transcript is returned exactly. -/
theorem audio_fallback_contract (r : Option String) (medias : List Media)
    (outcome : Except Unit (Option String)) :
    ((r = none ∨ ∃ t, r = some t ∧ jsTrim t = "") →
      resolveAudioText r = audioFallbackText) ∧
    (∀ t, r = some t → jsTrim t ≠ "" → resolveAudioText r = jsTrim t) ∧
    ((∃ m ∈ medias, isAudioFile m.contentType = true) →
      ((outcome = .error () ∨ outcome = .ok none ∨
          ∃ t, outcome = .ok (some t) ∧ jsTrim t = "") →
        processAudioMedia (some medias) outcome = some audioFallbackText ∨
        processAudioMedia (some medias) outcome = some audioErrorText) ∧
      (∀ t, outcome = .ok (some t) → jsTrim t ≠ "" →
        processAudioMedia (some medias) outcome = some (jsTrim t))) := by
  refine ⟨?_, ?_, ?_⟩
  · rintro (rfl | ⟨t, rfl, htr⟩)
    · rfl
    · simp [resolveAudioText, htr]
  · intro t hr htr
    subst hr
    simp [resolveAudioText, jsTrim_ne_empty t htr, htr]
  · intro hex
    have hfind : (medias.find? (fun m => isAudioFile m.contentType)).isSome := by
      rw [List.find?_isSome]
      obtain ⟨m, hm, hp⟩ := hex
      exact ⟨m, hm, hp⟩
    obtain ⟨m0, hm0⟩ := Option.isSome_iff_exists.mp hfind
    constructor
    · rintro (rfl | rfl | ⟨t, rfl, htr⟩)
      · right; simp [processAudioMedia, hm0]
      · left; simp [processAudioMedia, hm0]
      · left; simp [processAudioMedia, hm0, htr]
    · intro t hr htr
      subst hr
      simp [processAudioMedia, hm0, jsTrim_ne_empty t htr, htr]

/-- Witness for `audio_fallback_contract`: a whitespace-only transcript and a
`null` result both produce the fallback string, and a successful transcript
is trimmed and returned. -/
theorem audio_fallback_contract_witness :
    resolveAudioText (some "   ") = audioFallbackText ∧
    resolveAudioText none = audioFallbackText ∧
    processAudioMedia (some [⟨"u", some "audio/ogg"⟩]) (.ok (some " hola ")) =
      some (jsTrim " hola ") :=
  ⟨(audio_fallback_contract (some "   ") [] (.ok none)).1 (Or.inr ⟨"   ", rfl, by decide⟩),
   (audio_fallback_contract none [] (.ok none)).1 (Or.inl rfl),
   ((audio_fallback_contract (some " hola ") [⟨"u", some "audio/ogg"⟩]
      (.ok (some " hola "))).2.2 (by decide)).2 " hola " rfl (by decide)⟩

/- ===================== C3 ===================== -/

theorem pickRecent_max (l : List (String × List Turn)) (h : l ≠ []) :
    ∃ e ∈ l, pickRecent l = some e ∧ ∀ b ∈ l, lastTs b.2 ≤ lastTs e.2 := by
  induction l with
  | nil => exact absurd rfl h
  | cons e rest ih =>
    by_cases hrest : rest = []
    · subst hrest
      refine ⟨e, List.mem_cons_self e [], rfl, ?_⟩
      intro b hb
      rcases List.mem_cons.mp hb with rfl | hb2
      · exact le_refl _
      · exact absurd hb2 (List.not_mem_nil b)
    · obtain ⟨b, hbmem, hbpick, hbmax⟩ := ih hrest
      by_cases hgt : lastTs b.2 > lastTs e.2
      · refine ⟨b, List.mem_cons_of_mem e hbmem, ?_, ?_⟩
        · simp [pickRecent, hbpick, hgt]
        · intro c hc
          rcases List.mem_cons.mp hc with rfl | hc2
          · exact le_of_lt hgt
          · exact hbmax c hc2
      · refine ⟨e, List.mem_cons_self e rest, ?_, ?_⟩
        · simp [pickRecent, hbpick, hgt]
        · intro c hc
          rcases List.mem_cons.mp hc with rfl | hc2
          · exact le_refl _
          · exact le_trans (hbmax c hc2) (not_lt.mp hgt)

/-- C3 counterexample: an unidentifiable request is not kept anonymous — with
one previously seen `wa:` session in the in-process memory, the
part_000/part_002 handler variants adopt that session's user key for the
request. -/
theorem anon_reattach_counterexample :
    handlerAnonReattach "anon"
      [("wa:111", [⟨Role.user, some "hola", none, some 1⟩])] = "wa:111" ∧
    ("wa:111" : String) ≠ "anon" := by decide

/-- C3 amended: when no extraction strategy recovers an identifier, the
adapter's `extractUserInfo` yields the sentinel `"anon"` (with a null
phone); however the part_000/part_002 handler variants then reattach the
request to a previously seen `wa:` session whenever one with nonempty
history exists in memory — choosing one with maximal last-message
timestamp — and keep `"anon"` only when no such session exists. -/
theorem anon_resolution (f : Form) (mem : List (String × List Turn))
    (h1 : extractFromTwilioFormat f = none) (h2 : extractFromMalformedKey f = none)
    (h3 : extractFromMetaWebhook f = none) :
    (extractUserInfo f).userId = "anon" ∧ (extractUserInfo f).phone = "" ∧
    (waCandidates mem = [] → handlerAnonReattach "anon" mem = "anon") ∧
    (waCandidates mem ≠ [] → ∃ e ∈ waCandidates mem,
      handlerAnonReattach "anon" mem = e.1 ∧
      ∀ b ∈ waCandidates mem, lastTs b.2 ≤ lastTs e.2) := by
  refine ⟨?_, ?_, ?_, ?_⟩
  · simp [extractUserInfo, h1, h2, h3]
  · simp [extractUserInfo, h1, h2, h3]
  · intro hc; simp [handlerAnonReattach, hc, pickRecent]
  · intro hc
    obtain ⟨e, hmem, hpick, hmax⟩ := pickRecent_max (waCandidates mem) hc
    exact ⟨e, hmem, by simp [handlerAnonReattach, hpick], hmax⟩

/-- Witness for `anon_resolution` on a form carrying only a `Body` field and
a memory with one prior `wa:` session. -/
theorem anon_resolution_witness :
    (extractUserInfo ⟨[("Body", "hola")], none⟩).userId = "anon" ∧
    (extractUserInfo ⟨[("Body", "hola")], none⟩).phone = "" ∧
    (waCandidates [("wa:1", [⟨Role.user, some "a", none, some 5⟩])] = [] →
      handlerAnonReattach "anon" [("wa:1", [⟨Role.user, some "a", none, some 5⟩])] = "anon") ∧
    (waCandidates [("wa:1", [⟨Role.user, some "a", none, some 5⟩])] ≠ [] →
      ∃ e ∈ waCandidates [("wa:1", [⟨Role.user, some "a", none, some 5⟩])],
        handlerAnonReattach "anon" [("wa:1", [⟨Role.user, some "a", none, some 5⟩])] = e.1 ∧
        ∀ b ∈ waCandidates [("wa:1", [⟨Role.user, some "a", none, some 5⟩])],
          lastTs b.2 ≤ lastTs e.2) :=
  anon_resolution ⟨[("Body", "hola")], none⟩
    [("wa:1", [⟨Role.user, some "a", none, some 5⟩])] (by decide) (by decide) (by decide)

/- ===================== C9 ===================== -/

theorem pickMaxKey_max (l : List (String × List Turn)) (h : l ≠ []) :
    ∃ e ∈ l, pickMaxKey l = some e ∧ ∀ b ∈ l, ¬ (e.1 < b.1) := by
  induction l with
  | nil => exact absurd rfl h
  | cons e rest ih =>
    by_cases hrest : rest = []
    · subst hrest
      refine ⟨e, List.mem_cons_self e [], rfl, ?_⟩
      intro b hb
      rcases List.mem_cons.mp hb with rfl | hb2
      · exact lt_irrefl _
      · exact absurd hb2 (List.not_mem_nil b)
    · obtain ⟨b, hbmem, hbpick, hbmax⟩ := ih hrest
      by_cases hlt : e.1 < b.1
      · refine ⟨b, List.mem_cons_of_mem e hbmem, ?_, ?_⟩
        · simp [pickMaxKey, hbpick, hlt]
        · intro c hc
          rcases List.mem_cons.mp hc with rfl | hc2
          · exact fun hba => lt_asymm hlt hba
          · exact hbmax c hc2
      · refine ⟨e, List.mem_cons_self e rest, ?_, ?_⟩
        · simp [pickMaxKey, hbpick, hlt]
        · intro c hc
          rcases List.mem_cons.mp hc with rfl | hc2
          · exact lt_irrefl _
          · exact fun hec => hbmax c hc2 (lt_of_le_of_lt (not_lt.mp hlt) hec)

/-- C9 counterexample: an empty-but-present primary log does not trigger the
restore — JS `if (memory[userId])` is true for `[]` — so the store yields
the empty log even though a backup with turns exists for the user. -/
theorem restore_empty_present_counterexample :
    getConversationHistory [("wa:1", [])]
      [("backup_wa:1_100", [⟨Role.user, some "hola", none, none⟩])] "wa:1" = [] ∧
    restoreConversation
      [("backup_wa:1_100", [⟨Role.user, some "hola", none, none⟩])] "wa:1" =
      [⟨Role.user, some "hola", none, none⟩] ∧
    userBackups [("backup_wa:1_100", [⟨Role.user, some "hola", none, none⟩])] "wa:1" ≠
      [] := by decide

/-- C9 amended: the restore runs only when the primary log is missing
(key absent) — an empty-but-present log is returned as is. When the primary
log is missing and at least one backup exists for the user, the store
yields the turns of the backup with the lexicographically greatest
(timestamp-suffixed) key. -/
theorem restore_on_missing (sessions backups : List (String × List Turn))
    (userId : String) (hmiss : lookupSession sessions userId = none)
    (hne : userBackups backups userId ≠ []) :
    ∃ e ∈ userBackups backups userId,
      restoreConversation backups userId = e.2 ∧
      (∀ b ∈ userBackups backups userId, ¬ (e.1 < b.1)) ∧
      getConversationHistory sessions backups userId = e.2 := by
  obtain ⟨e, hmem, hpick, hmax⟩ := pickMaxKey_max _ hne
  refine ⟨e, hmem, ?_, hmax, ?_⟩
  · simp [restoreConversation, hpick]
  · simp only [getConversationHistory, hmiss, restoreConversation, hpick]
    cases he : e.2 with
    | nil => simp
    | cons a l => simp

/-- Witness for `restore_on_missing`: the user's primary log is absent and
the greater-keyed of two backups is restored. -/
theorem restore_on_missing_witness :
    ∃ e ∈ userBackups
        [("backup_wa:1_099", [⟨Role.user, some "vieja", none, none⟩]),
         ("backup_wa:1_100", [⟨Role.user, some "nueva", none, none⟩])] "wa:1",
      restoreConversation
        [("backup_wa:1_099", [⟨Role.user, some "vieja", none, none⟩]),
         ("backup_wa:1_100", [⟨Role.user, some "nueva", none, none⟩])] "wa:1" = e.2 ∧
      (∀ b ∈ userBackups
          [("backup_wa:1_099", [⟨Role.user, some "vieja", none, none⟩]),
           ("backup_wa:1_100", [⟨Role.user, some "nueva", none, none⟩])] "wa:1",
        ¬ (e.1 < b.1)) ∧
      getConversationHistory [("wa:2", [⟨Role.user, some "otra", none, none⟩])]
        [("backup_wa:1_099", [⟨Role.user, some "vieja", none, none⟩]),
         ("backup_wa:1_100", [⟨Role.user, some "nueva", none, none⟩])] "wa:1" = e.2 :=
  restore_on_missing [("wa:2", [⟨Role.user, some "otra", none, none⟩])]
    [("backup_wa:1_099", [⟨Role.user, some "vieja", none, none⟩]),
     ("backup_wa:1_100", [⟨Role.user, some "nueva", none, none⟩])] "wa:1"
    (by decide) (by decide)

/- ===================== C7 ===================== -/

theorem packAux_length_le (sents : List (List Char)) (cur : List Char)
    (hs : ∀ s ∈ sents, s.length ≤ 300) (hc : cur.length ≤ 301) :
    ∀ f ∈ packAux sents cur, f.length ≤ 301 := by
  induction sents generalizing cur with
  | nil =>
    intro f hf
    by_cases h : cur = []
    · simp [packAux, h] at hf
    · simp [packAux, h] at hf
      subst hf; exact hc
  | cons s rest ih =>
    intro f hf
    have hs300 : s.length ≤ 300 := hs s (List.mem_cons_self s rest)
    have hrest : ∀ x ∈ rest, x.length ≤ 300 := fun x hx => hs x (List.mem_cons_of_mem s hx)
    by_cases hle : cur.length + s.length ≤ 300
    · simp only [packAux, if_pos hle] at hf
      refine ih _ hrest ?_ f hf
      by_cases hcur : cur = []
      · simp [hcur]; omega
      · simp [hcur]; omega
    · by_cases hcur : cur = []
      · simp only [packAux, if_neg hle, if_pos hcur] at hf
        exact ih _ hrest (by omega) f hf
      · simp only [packAux, if_neg hle, if_neg hcur] at hf
        rcases List.mem_cons.mp hf with rfl | hf2
        · exact hc
        · exact ih _ hrest (by omega) f hf2

theorem sentAux_exists_ne (l : List Char) :
    ∀ acc, acc ≠ [] ∨ l ≠ [] → ∃ s ∈ sentAux l acc false, s ≠ [] := by
  induction l with
  | nil =>
    intro acc h
    rcases h with hacc | hl
    · exact ⟨acc.reverse, by simp [sentAux], by simpa using hacc⟩
    · exact absurd rfl hl
  | cons c rest ih =>
    intro acc h
    by_cases hsplit : isWs c ∧ acc.head? = some '.'
    · have hacc : acc ≠ [] := by
        intro h0
        rw [h0] at hsplit
        simp at hsplit
      exact ⟨acc.reverse, by simp [sentAux, hsplit], by simpa using hacc⟩
    · obtain ⟨s, hsmem, hne⟩ := ih (c :: acc) (Or.inl (by simp))
      exact ⟨s, by simpa [sentAux, hsplit] using hsmem, hne⟩

theorem packAux_ne_nil (sents : List (List Char)) :
    ∀ cur, cur ≠ [] ∨ (∃ s ∈ sents, s ≠ []) → packAux sents cur ≠ [] := by
  induction sents with
  | nil =>
    intro cur h
    rcases h with hc | ⟨s, hsmem, _⟩
    · simp [packAux, hc]
    · exact absurd hsmem (List.not_mem_nil s)
  | cons s rest ih =>
    intro cur h
    by_cases hle : cur.length + s.length ≤ 300
    · rw [show packAux (s :: rest) cur =
        packAux rest (if cur = [] then s else cur ++ ' ' :: s) from by
          simp [packAux, hle]]
      apply ih
      by_cases hcur : cur = []
      · rcases h with hc | ⟨x, hxmem, hxne⟩
        · exact absurd hcur hc
        · rcases List.mem_cons.mp hxmem with rfl | hx2
          · exact Or.inl (by simp [hcur]; exact hxne)
          · exact Or.inr ⟨x, hx2, hxne⟩
      · exact Or.inl (by simp [hcur])
    · by_cases hcur : cur = []
      · rw [show packAux (s :: rest) cur = packAux rest s from by simp [packAux, hle, hcur]]
        apply ih
        rcases h with hc | ⟨x, hxmem, hxne⟩
        · exact absurd hcur hc
        · rcases List.mem_cons.mp hxmem with rfl | hx2
          · exact Or.inl hxne
          · exact Or.inr ⟨x, hx2, hxne⟩
      · rw [show packAux (s :: rest) cur = cur :: packAux rest s from by
          simp [packAux, hle, hcur]]
        exact List.cons_ne_nil cur (packAux rest s)

theorem procPara_ne_nil (p : List Char) (ht : trimChars p ≠ []) : procPara p ≠ [] := by
  unfold procPara
  by_cases hlen : (trimChars p).length ≤ 300
  · simp [ht, hlen]
  · simp only [if_neg ht, if_neg hlen]
    obtain ⟨s, hsmem, hne⟩ := sentAux_exists_ne (trimChars p) [] (Or.inr ht)
    exact packAux_ne_nil _ [] (Or.inr ⟨s, hsmem, hne⟩)

set_option maxRecDepth 20000 in
/-- C7 counterexample: a 301-character reply with no paragraph or sentence
boundary is emitted as a single fragment of length 301 — the splitter does
not guarantee that fragments stay within the 300-character limit. -/
theorem splitter_limit_counterexample :
    dividirRespuesta (List.replicate 301 'a') = [List.replicate 301 'a'] ∧
    300 < (List.replicate 301 'a').length := by
  constructor
  · decide
  · rw [List.length_replicate]
    omega

/-- C7 amended: the splitter first splits on paragraph breaks; every
nonempty-after-trimming paragraph of at most 300 characters is emitted as
one fragment (its trimmed text); longer paragraphs are split on sentence
boundaries and greedily packed, but the 300 bound is checked without
counting the joining space — so, provided every sentence of each over-limit
paragraph is itself at most 300 characters, fragments are only guaranteed
not to exceed 301 characters (and a single over-limit sentence becomes a
fragment exceeding the limit, see the counterexample). -/
theorem dividirRespuesta_spec (texto : List Char)
    (hs : ∀ p ∈ paras texto, 300 < (trimChars p).length →
      ∀ s ∈ sentences (trimChars p), s.length ≤ 300)
    (hnb : ∃ p ∈ paras texto, trimChars p ≠ []) :
    (∀ p ∈ paras texto, trimChars p ≠ [] → (trimChars p).length ≤ 300 →
      trimChars p ∈ dividirRespuesta texto) ∧
    (∀ f ∈ dividirRespuesta texto, f.length ≤ 301) := by
  obtain ⟨p0, hp0, hp0ne⟩ := hnb
  have hmsgs : ((paras texto).map procPara).flatten ≠ [] := by
    obtain ⟨x, hx⟩ := List.exists_mem_of_ne_nil _ (procPara_ne_nil p0 hp0ne)
    exact List.ne_nil_of_mem
      (List.mem_flatten.mpr ⟨procPara p0, List.mem_map_of_mem procPara hp0, hx⟩)
  have hdiv : dividirRespuesta texto = ((paras texto).map procPara).flatten := by
    simp [dividirRespuesta, hmsgs]
  constructor
  · intro p hp htne hlen
    rw [hdiv]
    refine List.mem_flatten.mpr ⟨procPara p, List.mem_map_of_mem procPara hp, ?_⟩
    simp [procPara, htne, hlen]
  · intro f hf
    rw [hdiv] at hf
    obtain ⟨a, ha, hfa⟩ := List.mem_flatten.mp hf
    obtain ⟨p, hp, rfl⟩ := List.mem_map.mp ha
    by_cases htne : trimChars p = []
    · simp [procPara, htne] at hfa
    · by_cases hlen : (trimChars p).length ≤ 300
      · have hfp : f = trimChars p := by simpa [procPara, htne, hlen] using hfa
        rw [hfp]; omega
      · have hfa2 : f ∈ packAux (sentences (trimChars p)) [] := by
          simpa [procPara, htne, hlen] using hfa
        exact packAux_length_le _ [] (hs p hp (by omega)) (by simp) f hfa2

/-- Witness for `dividirRespuesta_spec` on the reply `"hola"`. -/
theorem dividirRespuesta_spec_witness :
    (∀ p ∈ paras "hola".data, trimChars p ≠ [] → (trimChars p).length ≤ 300 →
      trimChars p ∈ dividirRespuesta "hola".data) ∧
    (∀ f ∈ dividirRespuesta "hola".data, f.length ≤ 301) :=
  dividirRespuesta_spec "hola".data (by decide) (by decide)
